import Mathlib

/-!
# Verification of the skill-router BM25 core

A shallow embedding of the skill-router retrieval core:
the tokenizer (`src/core/keywords.ts`), the index builder
(`src/core/indexer.ts`) and the BM25 scorer / result selector
(`src/core/scorer.ts`), together with proofs of the specified
properties.

Modelling conventions:
* JavaScript numbers used for scores are modelled as real numbers `ℝ`
  (`Math.log` becomes `Real.log`); term-frequency counts and lengths,
  which are exact integers in the source, are modelled as `Nat`.
* The `documentFrequency` record object is modelled as an association
  list `List (String × Nat)` with first-match lookup.
* `[...new Set(xs)]` (insertion-order deduplication) is modelled by
  `uniqueFirst`.
* `Array.prototype.sort`, which is stable per the ECMAScript spec, is
  modelled by `List.mergeSort`.
-/

namespace SkillRouter

/-- The fixed stopword list from `src/core/keywords.ts` (`STOPWORDS`). -/
def STOPWORDS : List String :=
  ["a", "an", "and", "are", "as", "at", "be", "by", "can", "do", "for", "from",
   "has", "have", "he", "her", "his", "how", "i", "if", "in", "is", "it", "its",
   "just", "may", "me", "my", "no", "not", "of", "on", "or", "our", "out", "own",
   "say", "she", "so", "some", "than", "that", "the", "their", "them", "then",
   "there", "these", "they", "this", "those", "through", "to", "too", "up", "us",
   "use", "very", "was", "we", "were", "what", "when", "where", "which", "while",
   "who", "why", "will", "with", "would", "you", "your",
   "example", "see", "note", "using", "used", "uses"]

/-- `MIN_TOKEN_LENGTH` from `src/core/keywords.ts`. -/
def MIN_TOKEN_LENGTH : Nat := 2

/-- A character kept by the tokenizer cleaning step: the regex class
`[a-z0-9\s-]` of `text.replace(/[^a-z0-9\s-]/g, ' ')`. -/
def keepChar (c : Char) : Bool :=
  (decide (97 ≤ c.toNat) && decide (c.toNat ≤ 122)) ||
  (decide (48 ≤ c.toNat) && decide (c.toNat ≤ 57)) ||
  c.isWhitespace || (c == Char.ofNat 45)

/-- Split a character sequence on runs of whitespace (the
`split(/\s+/)` step); `cur` is the reversed current word accumulator.
JavaScript `split` may additionally emit empty-string fragments, which
the `MIN_TOKEN_LENGTH` filter in `tokenize` discards either way. -/
def splitWhitespace : List Char → List Char → List String
  | [], cur => if cur.isEmpty then [] else [String.mk cur.reverse]
  | c :: rest, cur =>
    if c.isWhitespace then
      if cur.isEmpty then splitWhitespace rest []
      else String.mk cur.reverse :: splitWhitespace rest []
    else splitWhitespace rest (c :: cur)

/-- `tokenize` from `src/core/keywords.ts`: lower-case, replace every
character outside `[a-z0-9\s-]` by a space, split on whitespace, keep
words of length at least `MIN_TOKEN_LENGTH`, drop stopwords.
Duplicates are kept. -/
def tokenize (text : String) : List String :=
  let lowered := text.toList.map Char.toLower
  let cleaned := lowered.map (fun c => if keepChar c then c else Char.ofNat 32)
  let words := (splitWhitespace cleaned []).filter
    (fun word => MIN_TOKEN_LENGTH ≤ word.length)
  words.filter (fun word => !(STOPWORDS.contains word))

/-- Insertion-order deduplication: appends an element unless already
present. `uniqueFirst` below models the JavaScript `[...new Set(xs)]`
idiom used throughout the source. -/
def insertUnique {α : Type} [DecidableEq α] (acc : List α) (x : α) : List α :=
  if x ∈ acc then acc else acc ++ [x]

/-- `[...new Set(l)]`: duplicates removed, first occurrence order kept. -/
def uniqueFirst {α : Type} [DecidableEq α] (l : List α) : List α :=
  l.foldl insertUnique []

/-- `extractUniqueTokens` from `src/core/keywords.ts`. -/
def extractUniqueTokens (text : String) : List String :=
  uniqueFirst (tokenize text)

/-- `tokenizeQuery` from `src/core/keywords.ts`: tokenizes a query
message (no deduplication). -/
def tokenizeQuery (message : String) : List String :=
  tokenize message

/-- `SkillEntry` from `src/types.ts`. The optional `alwaysInclude?`
boolean is modelled as a `Bool` (absence is falsy in the source). -/
structure SkillEntry where
  name : String
  description : String
  location : String
  keywords : List String
  tokens : List String
  tools : Option (List String)
  alwaysInclude : Bool
deriving DecidableEq

/-- `SkillIndex` from `src/types.ts`. `documentFrequency` is the record
object modelled as an association list. -/
structure SkillIndex where
  version : Nat
  generated : String
  skills : List SkillEntry
  documentFrequency : List (String × Nat)
  avgDocLength : ℝ

/-- `ScoringResult` from `src/types.ts`. -/
structure ScoringResult where
  skill : SkillEntry
  score : ℝ
  matchedKeywords : List String

/-- The part of `RouterConfig` (`src/types.ts`) consumed by
`scoreQuery`. -/
structure RouterConfig where
  maxResults : Nat
  threshold : ℝ
  bm25K1 : ℝ
  bm25B : ℝ
  alwaysInclude : List String

/-- Lookup in the `documentFrequency` record with the `?? 0` default
applied by the scorer (`this.index.documentFrequency[term] ?? 0`). -/
def lookupDF (df : List (String × Nat)) (term : String) : Nat :=
  match df.find? (fun p => p.1 == term) with
  | some p => p.2
  | none => 0

/-- JavaScript `keyword.includes(term)`: substring containment. -/
def strIncludes (hay needle : String) : Bool :=
  decide (needle.toList <:+: hay.toList)

/-- The keyword-match test of `BM25Scorer.getTermFrequency`:
`keyword === term || keyword.includes(term)`. -/
def keywordMatches (keyword term : String) : Bool :=
  keyword == term || strIncludes keyword term

/-- `BM25Scorer.getTermFrequency` from `src/core/scorer.ts`: +2 for
every keyword equal to or containing the term, +1 for every token
exactly equal to the term. -/
def getTermFrequency (skill : SkillEntry) (term : String) : Nat :=
  let kwCount := skill.keywords.foldl
    (fun count keyword => if keywordMatches keyword term then count + 2 else count) 0
  skill.tokens.foldl
    (fun count token => if token == term then count + 1 else count) kwCount

/-- `BM25Scorer.getDocLength` from `src/core/scorer.ts`. -/
def getDocLength (skill : SkillEntry) : Nat :=
  skill.keywords.length + skill.tokens.length

/-- `df[term] = (df[term] ?? 0) + 1` on the association-list model:
bump the existing entry, or append a fresh entry with count 1. -/
def dfIncr (df : List (String × Nat)) (term : String) : List (String × Nat) :=
  if df.any (fun p => p.1 == term) then
    df.map (fun p => if p.1 == term then (p.1, p.2 + 1) else p)
  else
    df ++ [(term, 1)]

/-- `calculateDocumentFrequency` from `src/core/indexer.ts`: for each
skill, each term of `new Set([...keywords, ...tokens])` bumps that
term's document frequency by one. -/
def calculateDocumentFrequency (skills : List SkillEntry) : List (String × Nat) :=
  skills.foldl
    (fun df skill => (uniqueFirst (skill.keywords ++ skill.tokens)).foldl dfIncr df)
    []

/-- `calculateAvgDocLength` from `src/core/indexer.ts`. -/
noncomputable def calculateAvgDocLength (skills : List SkillEntry) : ℝ :=
  if skills.length = 0 then 0
  else
    ((skills.foldl (fun sum skill => sum + skill.keywords.length + skill.tokens.length) 0 : Nat) : ℝ)
      / (skills.length : ℝ)

/-- `buildIndex` from `src/core/indexer.ts`, applied to an
already-resolved skill collection (directory scanning and frontmatter
parsing are the external collaborator `scanAllSkillDirectories`; the
`new Date().toISOString()` timestamp is passed in as `generated`). -/
noncomputable def buildIndex (skills : List SkillEntry) (generated : String) : SkillIndex :=
  { version := 1
    generated := generated
    skills := skills
    documentFrequency := calculateDocumentFrequency skills
    avgDocLength := calculateAvgDocLength skills }

/-- `BM25Scorer.calculateIDF` from `src/core/scorer.ts`:
`log((N - n + 0.5) / (n + 0.5) + 1)`, with the `n === 0` guard
returning 0. -/
noncomputable def calculateIDF (index : SkillIndex) (term : String) : ℝ :=
  let N : ℝ := (index.skills.length : ℝ)
  let n : Nat := lookupDF index.documentFrequency term
  if n = 0 then 0
  else Real.log ((N - (n : ℝ) + 0.5) / ((n : ℝ) + 0.5) + 1)

/-- The loop body of `BM25Scorer.scoreSkill`: one query term updates
the running `(score, matchedKeywords)` accumulator. -/
noncomputable def scoreStep (index : SkillIndex) (k1 b : ℝ) (skill : SkillEntry)
    (acc : ℝ × List String) (term : String) : ℝ × List String :=
  let tf := getTermFrequency skill term
  if 0 < tf then
    let idf := calculateIDF index term
    let numerator := (tf : ℝ) * (k1 + 1)
    let denominator := (tf : ℝ) + k1 * (1 - b + b * ((getDocLength skill : ℝ) / index.avgDocLength))
    (acc.1 + idf * (numerator / denominator), acc.2 ++ [term])
  else acc

/-- `BM25Scorer.scoreSkill` from `src/core/scorer.ts`: fold the loop
body over the query terms, then deduplicate the matched terms
(`[...new Set(matchedKeywords)]`). -/
noncomputable def scoreSkill (index : SkillIndex) (k1 b : ℝ) (skill : SkillEntry)
    (queryTerms : List String) : ScoringResult :=
  let acc := queryTerms.foldl (scoreStep index k1 b skill) (0, [])
  { skill := skill
    score := acc.1
    matchedKeywords := uniqueFirst acc.2 }

/-- `BM25Scorer.scoreAll` from `src/core/scorer.ts`: empty query terms
short-circuit to `[]`; otherwise score every skill and sort by score
descending with a stable sort (ECMAScript `Array.prototype.sort`). -/
noncomputable def scoreAll (index : SkillIndex) (k1 b : ℝ) (query : String) : List ScoringResult :=
  let queryTerms := tokenizeQuery query
  if queryTerms.length = 0 then []
  else
    let results := index.skills.map (fun skill => scoreSkill index k1 b skill queryTerms)
    results.mergeSort (fun r1 r2 => decide (r2.score ≤ r1.score))

/-- The always-include test of `scoreQuery`:
`s.alwaysInclude || config.alwaysInclude.includes(s.name)`. -/
def isAlwaysInclude (config : RouterConfig) (s : SkillEntry) : Bool :=
  s.alwaysInclude || config.alwaysInclude.contains s.name

/-- `alwaysIncludeSkills` inside `scoreQuery` (`src/core/scorer.ts`). -/
def alwaysIncludeSkills (index : SkillIndex) (config : RouterConfig) : List SkillEntry :=
  index.skills.filter (isAlwaysInclude config)

/-- The `topResults` part of `scoreQuery` (`src/core/scorer.ts`):
threshold filter, exclusion of always-include names, `slice(0, maxResults)`. -/
noncomputable def scoreQueryTopPart (index : SkillIndex) (query : String)
    (config : RouterConfig) : List ScoringResult :=
  let allResults := scoreAll index config.bm25K1 config.bm25B query
  let alwaysNames := (alwaysIncludeSkills index config).map SkillEntry.name
  (allResults.filter
    (fun r => decide (config.threshold ≤ r.score) && !(alwaysNames.contains r.skill.name))).take
    config.maxResults

/-- The element construction in `alwaysIncludeResults`
(`src/core/scorer.ts`): the skill's entry of `allResults` found by
name, with `??` falling back to a synthetic zero-score result. -/
noncomputable def alwaysEntry (index : SkillIndex) (query : String) (config : RouterConfig)
    (skill : SkillEntry) : ScoringResult :=
  match (scoreAll index config.bm25K1 config.bm25B query).find?
      (fun r => r.skill.name == skill.name) with
  | some existing => existing
  | none => { skill := skill, score := 0, matchedKeywords := [] }

/-- The `alwaysIncludeResults` part of `scoreQuery`
(`src/core/scorer.ts`): for each always-include skill, its entry from
`allResults` found by name, or a synthetic zero-score result. -/
noncomputable def scoreQueryAlwaysPart (index : SkillIndex) (query : String)
    (config : RouterConfig) : List ScoringResult :=
  (alwaysIncludeSkills index config).map (alwaysEntry index query config)

/-- `scoreQuery` from `src/core/scorer.ts`: always-include results
first, then the thresholded top results. -/
noncomputable def scoreQuery (index : SkillIndex) (query : String)
    (config : RouterConfig) : List ScoringResult :=
  scoreQueryAlwaysPart index query config ++ scoreQueryTopPart index query config

/-! ## Basic lemmas about `uniqueFirst` -/

theorem mem_foldl_insertUnique {α : Type} [DecidableEq α] (l : List α) (acc : List α) (x : α) :
    x ∈ l.foldl insertUnique acc ↔ x ∈ acc ∨ x ∈ l := by
  induction l generalizing acc with
  | nil => simp
  | cons a l ih =>
    rw [List.foldl_cons, ih]
    unfold insertUnique
    by_cases h : a ∈ acc
    · rw [if_pos h]
      simp only [List.mem_cons]
      constructor
      · rintro (hx | hx)
        · exact Or.inl hx
        · exact Or.inr (Or.inr hx)
      · rintro (hx | rfl | hx)
        · exact Or.inl hx
        · exact Or.inl h
        · exact Or.inr hx
    · rw [if_neg h]
      simp only [List.mem_append, List.mem_singleton, List.mem_cons]
      tauto

theorem nodup_foldl_insertUnique {α : Type} [DecidableEq α] (l : List α) (acc : List α)
    (h : acc.Nodup) : (l.foldl insertUnique acc).Nodup := by
  induction l generalizing acc with
  | nil => simpa
  | cons a l ih =>
    rw [List.foldl_cons]
    apply ih
    unfold insertUnique
    by_cases hmem : a ∈ acc
    · rwa [if_pos hmem]
    · rw [if_neg hmem]
      exact h.append (List.nodup_singleton a)
        (fun x hx hx' => by rw [List.mem_singleton] at hx'; exact hmem (hx' ▸ hx))

theorem mem_uniqueFirst {α : Type} [DecidableEq α] (l : List α) (x : α) :
    x ∈ uniqueFirst l ↔ x ∈ l := by
  unfold uniqueFirst
  rw [mem_foldl_insertUnique]
  simp

theorem nodup_uniqueFirst {α : Type} [DecidableEq α] (l : List α) :
    (uniqueFirst l).Nodup :=
  nodup_foldl_insertUnique l [] List.nodup_nil

theorem count_uniqueFirst {α : Type} [DecidableEq α] (l : List α) (x : α) :
    (uniqueFirst l).count x = if x ∈ l then 1 else 0 := by
  by_cases h : x ∈ l
  · rw [if_pos h]
    exact List.count_eq_one_of_mem (nodup_uniqueFirst l) ((mem_uniqueFirst l x).mpr h)
  · rw [if_neg h]
    exact List.count_eq_zero.mpr (fun hx => h ((mem_uniqueFirst l x).mp hx))

/-! ## Characterization of `getTermFrequency` -/

theorem foldl_count_two (p : String → Bool) (l : List String) (c : Nat) :
    l.foldl (fun count k => if p k then count + 2 else count) c = c + 2 * l.countP p := by
  induction l generalizing c with
  | nil => simp
  | cons a l ih =>
    rw [List.foldl_cons, List.countP_cons]
    by_cases h : p a
    · rw [if_pos h, ih]
      simp [h]
      omega
    · rw [if_neg h, ih]
      simp [h]

theorem foldl_count_one (p : String → Bool) (l : List String) (c : Nat) :
    l.foldl (fun count k => if p k then count + 1 else count) c = c + l.countP p := by
  induction l generalizing c with
  | nil => simp
  | cons a l ih =>
    rw [List.foldl_cons, List.countP_cons]
    by_cases h : p a
    · rw [if_pos h, ih]
      simp [h]
      omega
    · rw [if_neg h, ih]
      simp [h]

theorem getTermFrequency_eq (skill : SkillEntry) (term : String) :
    getTermFrequency skill term =
      2 * skill.keywords.countP (fun k => keywordMatches k term) +
        skill.tokens.countP (fun t => t == term) := by
  unfold getTermFrequency
  rw [foldl_count_two, foldl_count_one]
  omega

theorem keywordMatches_iff (k term : String) :
    keywordMatches k term = true ↔ k = term ∨ term.toList <:+: k.toList := by
  unfold keywordMatches strIncludes
  simp

theorem getTermFrequency_eq_zero (skill : SkillEntry) (term : String)
    (hk : ∀ k ∈ skill.keywords, ¬(k = term ∨ term.toList <:+: k.toList))
    (ht : term ∉ skill.tokens) :
    getTermFrequency skill term = 0 := by
  rw [getTermFrequency_eq]
  have h1 : skill.keywords.countP (fun k => keywordMatches k term) = 0 :=
    List.countP_eq_zero.mpr (fun k hkmem => by
      simp only [Bool.not_eq_true]
      rw [← Bool.not_eq_true, keywordMatches_iff]
      exact hk k hkmem)
  have h2 : skill.tokens.countP (fun t => t == term) = 0 :=
    List.countP_eq_zero.mpr (fun t htmem => by
      simp only [beq_iff_eq]
      rintro rfl
      exact ht htmem)
  rw [h1, h2]

/-! ## Characterization of `scoreSkill` and `scoreAll` -/

/-- The amount one query term adds to a document's score: 0 when the
term frequency is 0, otherwise the BM25 summand of `scoreSkill`. -/
noncomputable def termContribution (index : SkillIndex) (k1 b : ℝ) (skill : SkillEntry)
    (term : String) : ℝ :=
  let tf := getTermFrequency skill term
  if 0 < tf then
    calculateIDF index term *
      (((tf : ℝ) * (k1 + 1)) /
        ((tf : ℝ) + k1 * (1 - b + b * ((getDocLength skill : ℝ) / index.avgDocLength))))
  else 0

theorem foldl_scoreStep (index : SkillIndex) (k1 b : ℝ) (skill : SkillEntry)
    (ts : List String) (a : ℝ) (m : List String) :
    ts.foldl (scoreStep index k1 b skill) (a, m) =
      (a + (ts.map (termContribution index k1 b skill)).sum,
       m ++ ts.filter (fun t => decide (0 < getTermFrequency skill t))) := by
  induction ts generalizing a m with
  | nil => simp
  | cons t ts ih =>
    rw [List.foldl_cons]
    have hstep : scoreStep index k1 b skill (a, m) t =
        (a + termContribution index k1 b skill t,
         m ++ if 0 < getTermFrequency skill t then [t] else []) := by
      unfold scoreStep termContribution
      by_cases h : 0 < getTermFrequency skill t
      · simp [h]
      · simp [h]
    rw [hstep, ih, List.map_cons, List.sum_cons, List.filter_cons, Prod.mk.injEq]
    refine ⟨by ring, ?_⟩
    by_cases h : 0 < getTermFrequency skill t
    · simp [h]
    · simp [h]

theorem scoreSkill_skill (index : SkillIndex) (k1 b : ℝ) (skill : SkillEntry)
    (ts : List String) : (scoreSkill index k1 b skill ts).skill = skill := rfl

theorem scoreSkill_score (index : SkillIndex) (k1 b : ℝ) (skill : SkillEntry)
    (ts : List String) :
    (scoreSkill index k1 b skill ts).score =
      (ts.map (termContribution index k1 b skill)).sum := by
  unfold scoreSkill
  rw [foldl_scoreStep]
  simp

theorem scoreSkill_matched (index : SkillIndex) (k1 b : ℝ) (skill : SkillEntry)
    (ts : List String) :
    (scoreSkill index k1 b skill ts).matchedKeywords =
      uniqueFirst (ts.filter (fun t => decide (0 < getTermFrequency skill t))) := by
  unfold scoreSkill
  rw [foldl_scoreStep]
  simp

theorem scoreAll_eq_nil (index : SkillIndex) (k1 b : ℝ) (query : String)
    (h : tokenizeQuery query = []) : scoreAll index k1 b query = [] := by
  unfold scoreAll
  rw [h]
  simp

theorem scoreAll_eq_mergeSort (index : SkillIndex) (k1 b : ℝ) (query : String)
    (h : tokenizeQuery query ≠ []) :
    scoreAll index k1 b query =
      (index.skills.map (fun s => scoreSkill index k1 b s (tokenizeQuery query))).mergeSort
        (fun r1 r2 => decide (r2.score ≤ r1.score)) := by
  unfold scoreAll
  rw [if_neg (by simpa using h)]

theorem scoreAll_perm (index : SkillIndex) (k1 b : ℝ) (query : String)
    (h : tokenizeQuery query ≠ []) :
    (scoreAll index k1 b query).Perm
      (index.skills.map (fun s => scoreSkill index k1 b s (tokenizeQuery query))) := by
  rw [scoreAll_eq_mergeSort index k1 b query h]
  exact List.mergeSort_perm _ _

theorem mem_scoreAll (index : SkillIndex) (k1 b : ℝ) (query : String) (r : ScoringResult)
    (h : r ∈ scoreAll index k1 b query) :
    ∃ s ∈ index.skills, r = scoreSkill index k1 b s (tokenizeQuery query) := by
  by_cases hq : tokenizeQuery query = []
  · rw [scoreAll_eq_nil index k1 b query hq] at h
    cases h
  · rw [scoreAll_eq_mergeSort index k1 b query hq, List.mem_mergeSort, List.mem_map] at h
    obtain ⟨s, hs, hr⟩ := h
    exact ⟨s, hs, hr.symm⟩

/-! ## Document-frequency lemmas -/

theorem lookupDF_map_incr_ne (df : List (String × Nat)) (t u : String) (hne : u ≠ t) :
    lookupDF (df.map (fun p => if p.1 == t then (p.1, p.2 + 1) else p)) u = lookupDF df u := by
  induction df with
  | nil => rfl
  | cons p rest ih =>
    unfold lookupDF
    rw [List.map_cons, List.find?_cons, List.find?_cons]
    by_cases hpt : p.1 == t
    · rw [if_pos hpt]
      have hpu : (p.1 == u) = false := by
        have hpt2 : p.1 = t := by simpa using hpt
        rw [beq_eq_false_iff_ne, hpt2]
        exact fun hh => hne hh.symm
      simp only [hpu]
      exact ih
    · rw [if_neg hpt]
      by_cases hpu : p.1 == u
      · simp only [hpu]
      · simp only [hpu]
        exact ih

theorem lookupDF_map_incr_eq (df : List (String × Nat)) (t : String)
    (h : df.any (fun p => p.1 == t)) :
    lookupDF (df.map (fun p => if p.1 == t then (p.1, p.2 + 1) else p)) t =
      lookupDF df t + 1 := by
  induction df with
  | nil => simp at h
  | cons p rest ih =>
    unfold lookupDF
    rw [List.map_cons, List.find?_cons, List.find?_cons]
    by_cases hpt : p.1 == t
    · rw [if_pos hpt]
      simp only [hpt]
    · rw [if_neg hpt]
      simp only [hpt]
      rw [List.any_cons] at h
      simp only [hpt, Bool.false_or] at h
      exact ih h

theorem lookupDF_append_new (df : List (String × Nat)) (t u : String)
    (h : df.any (fun p => p.1 == t) = false) :
    lookupDF (df ++ [(t, 1)]) u = lookupDF df u + (if u = t then 1 else 0) := by
  unfold lookupDF
  rw [List.find?_append]
  by_cases hut : u = t
  · subst hut
    have hnone : df.find? (fun p => p.1 == u) = none := by
      rw [List.find?_eq_none]
      intro p hp
      have := List.any_eq_false.mp h p hp
      simpa using this
    rw [hnone]
    simp
  · by_cases hfind : (df.find? (fun p => p.1 == u)).isSome
    · obtain ⟨p, hp⟩ := Option.isSome_iff_exists.mp hfind
      rw [hp]
      simp [hut]
    · rw [Option.not_isSome_iff_eq_none] at hfind
      rw [hfind]
      simp only [Option.none_orElse]
      have : ((t, 1) : String × Nat).1 == u → False := by
        simp only [beq_iff_eq]
        exact fun hh => hut (hh.symm)
      rw [List.find?_cons]
      simp only [List.find?_nil]
      by_cases hcase : ((t, 1) : String × Nat).1 == u
      · exact absurd hcase this
      · simp only [hcase]
        simp [hut]

theorem lookupDF_dfIncr (df : List (String × Nat)) (t u : String) :
    lookupDF (dfIncr df t) u = lookupDF df u + (if u = t then 1 else 0) := by
  unfold dfIncr
  by_cases hany : df.any (fun p => p.1 == t)
  · rw [if_pos hany]
    by_cases hut : u = t
    · subst hut
      rw [lookupDF_map_incr_eq df u hany]
      simp
    · rw [lookupDF_map_incr_ne df t u hut]
      simp [hut]
  · rw [if_neg hany]
    exact lookupDF_append_new df t u (by rw [← Bool.not_eq_true]; exact hany)

theorem lookupDF_foldl_dfIncr (l : List String) (df : List (String × Nat)) (u : String) :
    lookupDF (l.foldl dfIncr df) u = lookupDF df u + l.count u := by
  induction l generalizing df with
  | nil => simp
  | cons t l ih =>
    rw [List.foldl_cons, ih, lookupDF_dfIncr, List.count_cons]
    by_cases h : u = t
    · subst h
      simp
      omega
    · have : (t == u) = false := by simpa using fun hh => h hh.symm
      simp [h, this]

theorem lookupDF_calculateDocumentFrequency (skills : List SkillEntry) (u : String) :
    lookupDF (calculateDocumentFrequency skills) u =
      skills.countP (fun s => s.keywords.contains u || s.tokens.contains u) := by
  unfold calculateDocumentFrequency
  suffices h : ∀ df : List (String × Nat),
      lookupDF (skills.foldl
        (fun df skill => (uniqueFirst (skill.keywords ++ skill.tokens)).foldl dfIncr df) df) u =
      lookupDF df u + skills.countP (fun s => s.keywords.contains u || s.tokens.contains u) by
    rw [h []]
    simp [lookupDF]
  induction skills with
  | nil => simp
  | cons s rest ih =>
    intro df
    rw [List.foldl_cons, ih, lookupDF_foldl_dfIncr, List.countP_cons]
    have hcount : (uniqueFirst (s.keywords ++ s.tokens)).count u =
        if u ∈ s.keywords ++ s.tokens then 1 else 0 := count_uniqueFirst _ u
    have hmem : (u ∈ s.keywords ++ s.tokens) ↔
        (s.keywords.contains u || s.tokens.contains u) = true := by
      simp [List.mem_append]
    by_cases h : u ∈ s.keywords ++ s.tokens
    · rw [hcount, if_pos h]
      have : (s.keywords.contains u || s.tokens.contains u) = true := hmem.mp h
      rw [this]
      simp
      omega
    · rw [hcount, if_neg h]
      have : (s.keywords.contains u || s.tokens.contains u) = false := by
        rw [← Bool.not_eq_true]
        exact fun hc => h (hmem.mpr hc)
      rw [this]
      simp

/-! ## IDF and contribution sign lemmas -/

theorem calculateIDF_nonneg (index : SkillIndex) (term : String)
    (h : lookupDF index.documentFrequency term ≤ index.skills.length) :
    0 ≤ calculateIDF index term := by
  unfold calculateIDF
  by_cases h0 : lookupDF index.documentFrequency term = 0
  · rw [if_pos h0]
  · rw [if_neg h0]
    apply Real.log_nonneg
    have hcast : (lookupDF index.documentFrequency term : ℝ) ≤ (index.skills.length : ℝ) :=
      Nat.cast_le.mpr h
    have hr : (0 : ℝ) ≤
        ((index.skills.length : ℝ) - (lookupDF index.documentFrequency term : ℝ) + 0.5) /
          ((lookupDF index.documentFrequency term : ℝ) + 0.5) := by
      apply div_nonneg
      · linarith
      · positivity
    linarith

theorem calculateIDF_pos (index : SkillIndex) (term : String)
    (h1 : 1 ≤ lookupDF index.documentFrequency term)
    (h2 : lookupDF index.documentFrequency term ≤ index.skills.length) :
    0 < calculateIDF index term := by
  unfold calculateIDF
  rw [if_neg (by omega)]
  apply Real.log_pos
  have hcast : (lookupDF index.documentFrequency term : ℝ) ≤ (index.skills.length : ℝ) :=
    Nat.cast_le.mpr h2
  have hr : (0 : ℝ) <
      ((index.skills.length : ℝ) - (lookupDF index.documentFrequency term : ℝ) + 0.5) /
        ((lookupDF index.documentFrequency term : ℝ) + 0.5) := by
    apply div_pos
    · linarith
    · positivity
  linarith

theorem termContribution_nonneg (index : SkillIndex) (k1 b : ℝ) (skill : SkillEntry)
    (term : String) (hk1 : 0 ≤ k1) (hb0 : 0 ≤ b) (hb1 : b ≤ 1)
    (havg : 0 ≤ index.avgDocLength)
    (hdf : lookupDF index.documentFrequency term ≤ index.skills.length) :
    0 ≤ termContribution index k1 b skill term := by
  unfold termContribution
  by_cases h : 0 < getTermFrequency skill term
  · rw [if_pos h]
    apply mul_nonneg (calculateIDF_nonneg index term hdf)
    apply div_nonneg
    · have : (0 : ℝ) ≤ (getTermFrequency skill term : ℝ) := Nat.cast_nonneg _
      nlinarith
    · have hratio : (0 : ℝ) ≤ (getDocLength skill : ℝ) / index.avgDocLength :=
        div_nonneg (Nat.cast_nonneg _) havg
      have hE : (0 : ℝ) ≤ 1 - b + b * ((getDocLength skill : ℝ) / index.avgDocLength) := by
        nlinarith
      have : (0 : ℝ) ≤ (getTermFrequency skill term : ℝ) := Nat.cast_nonneg _
      nlinarith
  · rw [if_neg h]

theorem termContribution_eq_zero_of_tf (index : SkillIndex) (k1 b : ℝ) (skill : SkillEntry)
    (term : String) (h : getTermFrequency skill term = 0) :
    termContribution index k1 b skill term = 0 := by
  unfold termContribution
  rw [if_neg (by omega)]

theorem termContribution_eq_zero_of_idf (index : SkillIndex) (k1 b : ℝ) (skill : SkillEntry)
    (term : String) (h : calculateIDF index term = 0) :
    termContribution index k1 b skill term = 0 := by
  unfold termContribution
  by_cases htf : 0 < getTermFrequency skill term
  · rw [if_pos htf, h, zero_mul]
  · rw [if_neg htf]

theorem scoreSkill_score_zero (index : SkillIndex) (k1 b : ℝ) (skill : SkillEntry)
    (ts : List String) (h : ∀ t ∈ ts, getTermFrequency skill t = 0) :
    (scoreSkill index k1 b skill ts).score = 0 := by
  rw [scoreSkill_score]
  apply List.sum_eq_zero
  intro x hx
  rw [List.mem_map] at hx
  obtain ⟨t, ht, rfl⟩ := hx
  exact termContribution_eq_zero_of_tf index k1 b skill t (h t ht)

theorem scoreSkill_matched_nil (index : SkillIndex) (k1 b : ℝ) (skill : SkillEntry)
    (ts : List String) (h : ∀ t ∈ ts, getTermFrequency skill t = 0) :
    (scoreSkill index k1 b skill ts).matchedKeywords = [] := by
  rw [scoreSkill_matched]
  have : ts.filter (fun t => decide (0 < getTermFrequency skill t)) = [] := by
    rw [List.filter_eq_nil_iff]
    intro t ht
    simp [h t ht]
  rw [this]
  rfl

theorem scoreSkill_score_nonneg (index : SkillIndex) (k1 b : ℝ) (skill : SkillEntry)
    (ts : List String) (hk1 : 0 ≤ k1) (hb0 : 0 ≤ b) (hb1 : b ≤ 1)
    (havg : 0 ≤ index.avgDocLength)
    (hdf : ∀ t : String, lookupDF index.documentFrequency t ≤ index.skills.length) :
    0 ≤ (scoreSkill index k1 b skill ts).score := by
  rw [scoreSkill_score]
  apply List.sum_nonneg
  intro x hx
  rw [List.mem_map] at hx
  obtain ⟨t, ht, rfl⟩ := hx
  exact termContribution_nonneg index k1 b skill t hk1 hb0 hb1 havg (hdf t)

/-! ## Average document length -/

theorem foldl_docLength (skills : List SkillEntry) (c : Nat) :
    skills.foldl (fun sum skill => sum + skill.keywords.length + skill.tokens.length) c =
      c + (skills.map (fun skill => skill.keywords.length + skill.tokens.length)).sum := by
  induction skills generalizing c with
  | nil => simp
  | cons a l ih =>
    rw [List.foldl_cons, ih, List.map_cons, List.sum_cons]
    omega

theorem calculateAvgDocLength_pos (skills : List SkillEntry) (s : SkillEntry)
    (hmem : s ∈ skills) (hlen : 0 < s.keywords.length + s.tokens.length) :
    0 < calculateAvgDocLength skills := by
  unfold calculateAvgDocLength
  have hne : skills.length ≠ 0 := by
    intro h
    rw [List.length_eq_zero] at h
    subst h
    cases hmem
  rw [if_neg hne]
  apply div_pos
  · rw [foldl_docLength]
    have hle : s.keywords.length + s.tokens.length ≤
        (skills.map (fun skill => skill.keywords.length + skill.tokens.length)).sum := by
      apply List.single_le_sum (fun x _ => Nat.zero_le x)
      exact List.mem_map_of_mem _ hmem
    have : 0 < 0 + (skills.map (fun skill => skill.keywords.length + skill.tokens.length)).sum := by
      omega
    exact_mod_cast this
  · have : 0 < skills.length := Nat.pos_of_ne_zero hne
    exact_mod_cast this

/-! ## Structural lemmas about the result selector -/

theorem alwaysEntry_name (index : SkillIndex) (query : String) (config : RouterConfig)
    (skill : SkillEntry) :
    (alwaysEntry index query config skill).skill.name = skill.name := by
  unfold alwaysEntry
  rcases hfind : (scoreAll index config.bm25K1 config.bm25B query).find?
      (fun r => r.skill.name == skill.name) with _ | existing
  · rw [hfind]
  · rw [hfind]
    have := List.find?_some hfind
    simpa using this

theorem alwaysEntry_cases (index : SkillIndex) (query : String) (config : RouterConfig)
    (skill : SkillEntry) :
    alwaysEntry index query config skill ∈ scoreAll index config.bm25K1 config.bm25B query ∨
      alwaysEntry index query config skill =
        { skill := skill, score := 0, matchedKeywords := [] } := by
  unfold alwaysEntry
  rcases hfind : (scoreAll index config.bm25K1 config.bm25B query).find?
      (fun r => r.skill.name == skill.name) with _ | existing
  · rw [hfind]
    exact Or.inr rfl
  · rw [hfind]
    exact Or.inl (List.mem_of_find?_eq_some hfind)

theorem mem_alwaysIncludeSkills (index : SkillIndex) (config : RouterConfig) (s : SkillEntry) :
    s ∈ alwaysIncludeSkills index config ↔
      s ∈ index.skills ∧ isAlwaysInclude config s = true :=
  List.mem_filter

theorem mem_topPart (index : SkillIndex) (query : String) (config : RouterConfig)
    (r : ScoringResult) (h : r ∈ scoreQueryTopPart index query config) :
    r ∈ scoreAll index config.bm25K1 config.bm25B query ∧
      config.threshold ≤ r.score ∧
      ((alwaysIncludeSkills index config).map SkillEntry.name).contains r.skill.name = false := by
  unfold scoreQueryTopPart at h
  have hfilter := List.take_sublist config.maxResults _ |>.mem h
  rw [List.mem_filter] at hfilter
  obtain ⟨hmem, hcond⟩ := hfilter
  rw [Bool.and_eq_true] at hcond
  obtain ⟨hthr, hnot⟩ := hcond
  refine ⟨hmem, ?_, ?_⟩
  · exact of_decide_eq_true hthr
  · rwa [Bool.not_eq_true'] at hnot

theorem length_topPart (index : SkillIndex) (query : String) (config : RouterConfig) :
    (scoreQueryTopPart index query config).length ≤ config.maxResults := by
  unfold scoreQueryTopPart
  exact List.length_take_le _ _

theorem scoreQuery_eq_append (index : SkillIndex) (query : String) (config : RouterConfig) :
    scoreQuery index query config =
      scoreQueryAlwaysPart index query config ++ scoreQueryTopPart index query config := rfl

/-! ## Concrete sample data used to instantiate the theorems -/

/-- A concrete skill entry mirroring the `github-pr` scenario of the
test corpus. -/
def ghSkill : SkillEntry :=
  { name := "github-pr", description := "", location := ""
    keywords := ["github", "pr", "pull", "request"], tokens := ["workflow"]
    tools := none, alwaysInclude := false }

/-- A concrete skill entry mirroring the `database` scenario. -/
def dbSkill : SkillEntry :=
  { name := "database", description := "", location := ""
    keywords := ["database", "sql"], tokens := ["sql"]
    tools := none, alwaysInclude := false }

/-- A concrete always-include skill entry mirroring the `skill-router`
scenario. -/
def routerSkill : SkillEntry :=
  { name := "skill-router", description := "", location := ""
    keywords := ["router"], tokens := []
    tools := none, alwaysInclude := true }

/-- A concrete index built over the sample corpus. -/
noncomputable def sampleIndex : SkillIndex :=
  buildIndex [ghSkill, dbSkill, routerSkill] "2025-01-01T00:00:00Z"

/-- A concrete configuration with a threshold above any attainable
score. -/
noncomputable def sampleConfig : RouterConfig :=
  { maxResults := 3, threshold := 100, bm25K1 := 1.2, bm25B := 0.75
    alwaysInclude := [] }

/-! ## The claims -/

/-- C1 (counterexample): the claim "for every term T absent from D's
keywords and D's tokens, termFrequency(D, T) = 0 and T never appears in
matchedKeywords" is false as stated, because `getTermFrequency` also
counts keywords that merely *contain* the term as a substring: the term
"git" is not a member of `ghSkill`'s keywords or tokens, yet its term
frequency is nonzero (the keyword "github" contains it) and it is
reported in `matchedKeywords`. -/
theorem c1_counterexample :
    "git" ∉ ghSkill.keywords ∧ "git" ∉ ghSkill.tokens ∧
      getTermFrequency ghSkill "git" ≠ 0 ∧
      "git" ∈ (scoreSkill sampleIndex 1.2 0.75 ghSkill ["git"]).matchedKeywords := by
  refine ⟨by decide, by decide, by decide, ?_⟩
  rw [scoreSkill_matched]
  have : (["git"].filter (fun t => decide (0 < getTermFrequency ghSkill t))) = ["git"] := by
    decide
  rw [this]
  decide

/-- C1 (amended): for every document D and term T that is not a member
of D's tokens and neither equals nor occurs as a substring of any of
D's keywords, the term frequency of T in D is 0, and T never appears in
the `matchedKeywords` of D's `ScoringResult` for any query. -/
theorem c1_term_absent (skill : SkillEntry) (term : String)
    (hk : ∀ k ∈ skill.keywords, ¬(k = term ∨ term.toList <:+: k.toList))
    (ht : term ∉ skill.tokens) :
    getTermFrequency skill term = 0 ∧
      ∀ (index : SkillIndex) (k1 b : ℝ) (queryTerms : List String),
        term ∉ (scoreSkill index k1 b skill queryTerms).matchedKeywords := by
  have h0 := getTermFrequency_eq_zero skill term hk ht
  refine ⟨h0, ?_⟩
  intro index k1 b queryTerms hmem
  rw [scoreSkill_matched, mem_uniqueFirst] at hmem
  have hfilter := List.of_mem_filter hmem
  rw [h0] at hfilter
  simp at hfilter

/-- C1 (witness): the amended theorem applied to the `database` skill
and the term "git". -/
theorem c1_witness :
    getTermFrequency dbSkill "git" = 0 ∧
      "git" ∉ (scoreSkill sampleIndex 1.2 0.75 dbSkill ["git"]).matchedKeywords := by
  have h := c1_term_absent dbSkill "git" (by decide) (by decide)
  exact ⟨h.1, h.2 sampleIndex 1.2 0.75 ["git"]⟩

/-- C6: for every index and every query whose tokenization yields no
terms, `scoreAll` returns the empty sequence. -/
theorem c6_empty_query (index : SkillIndex) (k1 b : ℝ) (query : String)
    (h : tokenizeQuery query = []) :
    scoreAll index k1 b query = [] :=
  scoreAll_eq_nil index k1 b query h

/-- C6 (witness): the empty query and a query made of stopwords and
sub-2-character fragments both tokenize to nothing and score to an
empty result list. -/
theorem c6_witness :
    tokenizeQuery "" = [] ∧ tokenizeQuery "To the and a of IT x" = [] ∧
      scoreAll sampleIndex 1.2 0.75 "To the and a of IT x" = [] :=
  ⟨by decide, by decide, c6_empty_query sampleIndex 1.2 0.75 _ (by decide)⟩

/-- C7: for every skill collection, the index built by `buildIndex`
maps each term to a document frequency equal to the number of documents
of that same index whose keywords or tokens contain the term — one per
document, independently of how many times the term occurs inside it. -/
theorem c7_documentFrequency_consistent (skills : List SkillEntry) (generated : String)
    (term : String) :
    lookupDF ((buildIndex skills generated).documentFrequency) term =
      ((buildIndex skills generated).skills).countP
        (fun s => s.keywords.contains term || s.tokens.contains term) :=
  lookupDF_calculateDocumentFrequency skills term

/-- C9: the IDF is `ln((N - df + 0.5) / (df + 0.5) + 1)` whenever the
document frequency is nonzero; when it is 0 the IDF is 0, and a term
with document frequency 0 contributes nothing to any document's score. -/
theorem c9_idf_formula (index : SkillIndex) (term : String) (k1 b : ℝ) :
    (lookupDF index.documentFrequency term ≠ 0 →
      calculateIDF index term =
        Real.log (((index.skills.length : ℝ) - (lookupDF index.documentFrequency term : ℝ) + 0.5) /
          ((lookupDF index.documentFrequency term : ℝ) + 0.5) + 1)) ∧
    (lookupDF index.documentFrequency term = 0 → calculateIDF index term = 0) ∧
    (lookupDF index.documentFrequency term = 0 →
      ∀ (skill : SkillEntry) (ts : List String),
        (scoreSkill index k1 b skill (term :: ts)).score =
          (scoreSkill index k1 b skill ts).score) := by
  refine ⟨?_, ?_, ?_⟩
  · intro h
    unfold calculateIDF
    rw [if_neg h]
  · intro h
    unfold calculateIDF
    rw [if_pos h]
  · intro h skill ts
    rw [scoreSkill_score, scoreSkill_score, List.map_cons, List.sum_cons]
    have hidf : calculateIDF index term = 0 := by
      unfold calculateIDF
      rw [if_pos h]
    rw [termContribution_eq_zero_of_idf index k1 b skill term hidf, zero_add]

/-- C9 (witness): in the sample index, "zzz" is absent from the corpus
(IDF 0, no score contribution), while "sql" has nonzero document
frequency and its IDF follows the logarithmic formula. -/
theorem c9_witness :
    lookupDF sampleIndex.documentFrequency "zzz" = 0 ∧
      calculateIDF sampleIndex "zzz" = 0 ∧
      lookupDF sampleIndex.documentFrequency "sql" ≠ 0 ∧
      calculateIDF sampleIndex "sql" =
        Real.log (((sampleIndex.skills.length : ℝ) -
            (lookupDF sampleIndex.documentFrequency "sql" : ℝ) + 0.5) /
          ((lookupDF sampleIndex.documentFrequency "sql" : ℝ) + 0.5) + 1) ∧
      (scoreSkill sampleIndex 1.2 0.75 ghSkill ["zzz"]).score =
        (scoreSkill sampleIndex 1.2 0.75 ghSkill []).score :=
  ⟨by decide, (c9_idf_formula sampleIndex "zzz" 1.2 0.75).2.1 (by decide),
   by decide, (c9_idf_formula sampleIndex "sql" 1.2 0.75).1 (by decide),
   (c9_idf_formula sampleIndex "zzz" 1.2 0.75).2.2 (by decide) ghSkill []⟩

/-- C10: `matchedKeywords` contains no duplicates, and every entry is a
query term whose term frequency in the document is positive. -/
theorem c10_matched_invariants (index : SkillIndex) (k1 b : ℝ) (skill : SkillEntry)
    (queryTerms : List String) :
    (scoreSkill index k1 b skill queryTerms).matchedKeywords.Nodup ∧
      ∀ t ∈ (scoreSkill index k1 b skill queryTerms).matchedKeywords,
        t ∈ queryTerms ∧ 0 < getTermFrequency skill t := by
  rw [scoreSkill_matched]
  refine ⟨nodup_uniqueFirst _, ?_⟩
  intro t ht
  rw [mem_uniqueFirst] at ht
  have h1 := List.mem_of_mem_filter ht
  have h2 := List.of_mem_filter ht
  exact ⟨h1, of_decide_eq_true h2⟩

theorem contains_iff_mem (l : List String) (a : String) : l.contains a = true ↔ a ∈ l := by
  rw [List.contains_iff_exists_mem_beq]
  simp

/-- C3: every score produced by the scorer is non-negative (for BM25
parameters in their standard ranges and an index with consistent
document frequencies), and an always-include entry with no query
overlap has score exactly 0. -/
theorem c3_score_nonneg (index : SkillIndex) (k1 b : ℝ) (query : String)
    (config : RouterConfig)
    (hk1 : 0 ≤ k1) (hb0 : 0 ≤ b) (hb1 : b ≤ 1)
    (hck1 : 0 ≤ config.bm25K1) (hcb0 : 0 ≤ config.bm25B) (hcb1 : config.bm25B ≤ 1)
    (havg : 0 ≤ index.avgDocLength)
    (hdf : ∀ t : String, lookupDF index.documentFrequency t ≤ index.skills.length) :
    (∀ r ∈ scoreAll index k1 b query, 0 ≤ r.score) ∧
      (∀ r ∈ scoreQuery index query config, 0 ≤ r.score) ∧
      (∀ r ∈ scoreQueryAlwaysPart index query config,
        (∀ t ∈ tokenizeQuery query, getTermFrequency r.skill t = 0) → r.score = 0) := by
  have hall : ∀ (x y : ℝ), 0 ≤ x → 0 ≤ y → y ≤ 1 →
      ∀ r ∈ scoreAll index x y query, 0 ≤ r.score := by
    intro x y hx hy0 hy1 r hr
    obtain ⟨s, _, rfl⟩ := mem_scoreAll index x y query r hr
    exact scoreSkill_score_nonneg index x y s _ hx hy0 hy1 havg hdf
  refine ⟨hall k1 b hk1 hb0 hb1, ?_, ?_⟩
  · intro r hr
    rw [scoreQuery_eq_append, List.mem_append] at hr
    rcases hr with hr | hr
    · unfold scoreQueryAlwaysPart at hr
      rw [List.mem_map] at hr
      obtain ⟨s, _, rfl⟩ := hr
      rcases alwaysEntry_cases index query config s with hmem | heq
      · exact hall config.bm25K1 config.bm25B hck1 hcb0 hcb1 _ hmem
      · rw [heq]
    · exact hall config.bm25K1 config.bm25B hck1 hcb0 hcb1 r
        (mem_topPart index query config r hr).1
  · intro r hr hzero
    unfold scoreQueryAlwaysPart at hr
    rw [List.mem_map] at hr
    obtain ⟨s, _, rfl⟩ := hr
    rcases alwaysEntry_cases index query config s with hmem | heq
    · obtain ⟨s2, _, heq2⟩ := mem_scoreAll _ _ _ _ _ hmem
      rw [heq2] at hzero ⊢
      apply scoreSkill_score_zero
      intro t ht
      have := hzero t ht
      rwa [scoreSkill_skill] at this
    · rw [heq]

/-- C3 (witness): the non-negativity theorem instantiated on the sample
index and configuration. -/
theorem c3_witness :
    (∀ r ∈ scoreAll sampleIndex 1.2 0.75 "create a github pull request", 0 ≤ r.score) ∧
      (∀ r ∈ scoreQuery sampleIndex "create a github pull request" sampleConfig, 0 ≤ r.score) := by
  have havg : (0 : ℝ) ≤ sampleIndex.avgDocLength := by
    show (0 : ℝ) ≤ calculateAvgDocLength [ghSkill, dbSkill, routerSkill]
    unfold calculateAvgDocLength
    rw [if_neg (by decide)]
    positivity
  have hdf : ∀ t : String,
      lookupDF sampleIndex.documentFrequency t ≤ sampleIndex.skills.length := by
    intro t
    show lookupDF (calculateDocumentFrequency [ghSkill, dbSkill, routerSkill]) t ≤ _
    rw [lookupDF_calculateDocumentFrequency]
    exact List.countP_le_length _
  have h := c3_score_nonneg sampleIndex 1.2 0.75 "create a github pull request" sampleConfig
    (by norm_num) (by norm_num) (by norm_num)
    (by show (0:ℝ) ≤ 1.2; norm_num) (by show (0:ℝ) ≤ 0.75; norm_num)
    (by show (0.75:ℝ) ≤ 1; norm_num) havg hdf
  exact ⟨h.1, h.2.1⟩

/-- C4: an always-include document appears exactly once in
`scoreQuery`'s output, only via the always-include partition, for every
configuration (hence regardless of the threshold); and when it has no
overlap with the query it appears with score 0 and empty matched
terms. -/
theorem c4_always_include (index : SkillIndex) (query : String) (config : RouterConfig)
    (skill : SkillEntry)
    (hnd : (index.skills.map SkillEntry.name).Nodup)
    (hmem : skill ∈ index.skills)
    (hai : isAlwaysInclude config skill = true) :
    ((scoreQuery index query config).countP (fun r => r.skill.name == skill.name) = 1) ∧
      (∀ r ∈ scoreQueryTopPart index query config, r.skill.name ≠ skill.name) ∧
      ((∀ t ∈ tokenizeQuery query, getTermFrequency skill t = 0) →
        ∀ r ∈ scoreQuery index query config, r.skill.name = skill.name →
          r.score = 0 ∧ r.matchedKeywords = []) := by
  have hskill_always : skill ∈ alwaysIncludeSkills index config :=
    List.mem_filter.mpr ⟨hmem, hai⟩
  have hname_mem : skill.name ∈ (alwaysIncludeSkills index config).map SkillEntry.name :=
    List.mem_map_of_mem SkillEntry.name hskill_always
  have htop : ∀ r ∈ scoreQueryTopPart index query config, r.skill.name ≠ skill.name := by
    intro r hr heq
    have hcont := (mem_topPart index query config r hr).2.2
    rw [heq] at hcont
    rw [(contains_iff_mem _ _).mpr hname_mem] at hcont
    cases hcont
  refine ⟨?_, htop, ?_⟩
  · rw [scoreQuery_eq_append, List.countP_append]
    have htop0 : (scoreQueryTopPart index query config).countP
        (fun r => r.skill.name == skill.name) = 0 := by
      rw [List.countP_eq_zero]
      intro r hr
      simp only [beq_iff_eq]
      exact fun h => htop r hr h
    have halways1 : (scoreQueryAlwaysPart index query config).countP
        (fun r => r.skill.name == skill.name) = 1 := by
      unfold scoreQueryAlwaysPart
      rw [List.countP_map]
      have hcongr : (alwaysIncludeSkills index config).countP
          ((fun r : ScoringResult => r.skill.name == skill.name) ∘
            alwaysEntry index query config) =
          (alwaysIncludeSkills index config).countP
            (fun s => s.name == skill.name) := by
        apply List.countP_congr
        intro s _
        simp only [Function.comp_apply, alwaysEntry_name]
      rw [hcongr]
      have hmapped : (alwaysIncludeSkills index config).countP
          (fun s => s.name == skill.name) =
          ((alwaysIncludeSkills index config).map SkillEntry.name).count skill.name := by
        rw [List.count, List.countP_map]
        rfl
      rw [hmapped]
      apply List.count_eq_one_of_mem
      · apply List.Nodup.sublist _ hnd
        exact (List.filter_sublist _).map SkillEntry.name
      · exact hname_mem
    omega
  · intro hzero r hr hname
    rw [scoreQuery_eq_append, List.mem_append] at hr
    rcases hr with hr | hr
    · unfold scoreQueryAlwaysPart at hr
      rw [List.mem_map] at hr
      obtain ⟨s, _, rfl⟩ := hr
      rcases alwaysEntry_cases index query config s with hmemAll | heq
      · obtain ⟨s2, hs2, heq2⟩ := mem_scoreAll _ _ _ _ _ hmemAll
        have hs2name : s2.name = skill.name := by
          rw [heq2, scoreSkill_skill] at hname
          exact hname
        have hs2eq : s2 = skill := List.inj_on_of_nodup_map hnd hs2 hmem hs2name
        subst hs2eq
        rw [heq2]
        exact ⟨scoreSkill_score_zero _ _ _ _ _ hzero, scoreSkill_matched_nil _ _ _ _ _ hzero⟩
      · rw [heq]
        exact ⟨rfl, rfl⟩
    · exact absurd hname (htop r hr)

/-- C4 (witness): the always-include theorem instantiated on the sample
index, a query overlapping nothing of the router skill, and a threshold
above any attainable score. -/
theorem c4_witness :
    ((scoreQuery sampleIndex "create a github pull request" sampleConfig).countP
        (fun r => r.skill.name == "skill-router") = 1) ∧
      (∀ r ∈ scoreQuery sampleIndex "create a github pull request" sampleConfig,
        r.skill.name = "skill-router" → r.score = 0 ∧ r.matchedKeywords = []) := by
  have h := c4_always_include sampleIndex "create a github pull request" sampleConfig
    routerSkill (by decide) (by decide) (by decide)
  refine ⟨h.1, fun r hr hname => h.2.2 (by decide) r hr hname⟩

/-- C5: every result of `scoreQuery` outside the always-include set
clears the threshold, and at most `maxResults` such results are
returned. -/
theorem c5_threshold_and_cap (index : SkillIndex) (query : String) (config : RouterConfig) :
    (∀ r ∈ scoreQuery index query config,
        r.skill.name ∉ (alwaysIncludeSkills index config).map SkillEntry.name →
          config.threshold ≤ r.score) ∧
      ((scoreQuery index query config).countP
          (fun r => !(((alwaysIncludeSkills index config).map SkillEntry.name).contains
            r.skill.name)) ≤ config.maxResults) := by
  have halwaysname : ∀ r ∈ scoreQueryAlwaysPart index query config,
      r.skill.name ∈ (alwaysIncludeSkills index config).map SkillEntry.name := by
    intro r hr
    unfold scoreQueryAlwaysPart at hr
    rw [List.mem_map] at hr
    obtain ⟨s, hs, rfl⟩ := hr
    rw [alwaysEntry_name]
    exact List.mem_map_of_mem SkillEntry.name hs
  constructor
  · intro r hr hnot
    rw [scoreQuery_eq_append, List.mem_append] at hr
    rcases hr with hr | hr
    · exact absurd (halwaysname r hr) hnot
    · exact (mem_topPart index query config r hr).2.1
  · rw [scoreQuery_eq_append, List.countP_append]
    have h0 : (scoreQueryAlwaysPart index query config).countP
        (fun r => !(((alwaysIncludeSkills index config).map SkillEntry.name).contains
          r.skill.name)) = 0 := by
      rw [List.countP_eq_zero]
      intro r hr
      rw [Bool.not_eq_true', Bool.not_eq_false]
      exact (contains_iff_mem _ _).mpr (halwaysname r hr)
    have h1 : (scoreQueryTopPart index query config).countP
        (fun r => !(((alwaysIncludeSkills index config).map SkillEntry.name).contains
          r.skill.name)) ≤ config.maxResults :=
      le_trans (List.countP_le_length _) (length_topPart index query config)
    omega

/-- A stable sort leaves each equivalence class of mutually
`le`-related elements in its original order: filtering the sorted list
by a predicate on which `le` always holds gives the filter of the
input. -/
theorem mergeSort_filter_stable {α : Type} (le : α → α → Bool)
    (htrans : ∀ a b c, le a b → le b c → le a c)
    (htotal : ∀ a b, le a b || le b a)
    (l : List α) (p : α → Bool)
    (hp : ∀ a b, p a → p b → le a b) :
    (l.mergeSort le).filter p = l.filter p := by
  have hcpair : (l.filter p).Pairwise (fun a b => le a b) :=
    List.pairwise_of_forall_mem_list
      (fun a ha b hb => hp a b (List.of_mem_filter ha) (List.of_mem_filter hb))
  have hsub : List.Sublist (l.filter p) (l.mergeSort le) :=
    List.sublist_mergeSort htrans htotal hcpair (List.filter_sublist l)
  have hsub2 : List.Sublist (l.filter p) ((l.mergeSort le).filter p) := by
    have h2 := hsub.filter p
    rwa [List.filter_filter,
      show (fun a => p a && p a) = p from funext (fun a => Bool.and_self (p a))] at h2
  have hperm : ((l.mergeSort le).filter p).Perm (l.filter p) :=
    (List.mergeSort_perm l le).filter p
  exact (hsub2.eq_of_length hperm.length_eq.symm).symm

/-- C8: for a query with at least one scorable term, `scoreAll` returns
one result per document (a permutation of the per-document scoring
map), sorted by score descending, and the sort is stable: for every
score value, the results carrying that score appear exactly in their
original index order. -/
theorem c8_sorted_stable (index : SkillIndex) (k1 b : ℝ) (query : String)
    (h : tokenizeQuery query ≠ []) :
    (scoreAll index k1 b query).Perm
        (index.skills.map (fun s => scoreSkill index k1 b s (tokenizeQuery query))) ∧
      (scoreAll index k1 b query).Pairwise (fun r1 r2 => r2.score ≤ r1.score) ∧
      ∀ s : ℝ, (scoreAll index k1 b query).filter (fun r => decide (r.score = s)) =
        (index.skills.map (fun sk => scoreSkill index k1 b sk (tokenizeQuery query))).filter
          (fun r => decide (r.score = s)) := by
  have htrans : ∀ (r1 r2 r3 : ScoringResult),
      decide (r2.score ≤ r1.score) → decide (r3.score ≤ r2.score) →
        decide (r3.score ≤ r1.score) := by
    intro r1 r2 r3 h12 h23
    rw [decide_eq_true_eq] at *
    exact le_trans h23 h12
  have htotal : ∀ (r1 r2 : ScoringResult),
      decide (r2.score ≤ r1.score) || decide (r1.score ≤ r2.score) := by
    intro r1 r2
    rw [Bool.or_eq_true, decide_eq_true_eq, decide_eq_true_eq]
    exact le_total r2.score r1.score
  rw [scoreAll_eq_mergeSort index k1 b query h]
  refine ⟨List.mergeSort_perm _ _, ?_, ?_⟩
  · have hs := List.sorted_mergeSort htrans htotal
      (index.skills.map (fun s => scoreSkill index k1 b s (tokenizeQuery query)))
    exact hs.imp (fun hab => of_decide_eq_true hab)
  · intro s
    apply mergeSort_filter_stable _ htrans htotal
    intro r1 r2 h1 h2
    have e1 : r1.score = s := of_decide_eq_true h1
    have e2 : r2.score = s := of_decide_eq_true h2
    rw [decide_eq_true_eq, e1, e2]

/-- C8 (witness): the sorting theorem instantiated on the sample index
and a non-trivial query. -/
theorem c8_witness :
    (scoreAll sampleIndex 1.2 0.75 "github sql").Perm
        (sampleIndex.skills.map
          (fun s => scoreSkill sampleIndex 1.2 0.75 s (tokenizeQuery "github sql"))) ∧
      (scoreAll sampleIndex 1.2 0.75 "github sql").Pairwise
        (fun r1 r2 => r2.score ≤ r1.score) := by
  have h := c8_sorted_stable sampleIndex 1.2 0.75 "github sql" (by decide)
  exact ⟨h.1, h.2.1⟩

/-- C2: a document matching a query term via one extra keyword scores
strictly higher against a built index than an otherwise-identical
document (same shared keywords/tokens, same document length) matching
the same term via one extra body token — for BM25 parameters in their
standard ranges (`k1 > 0`, `0 ≤ b ≤ 1`), with the token-matching
document present in the index. -/
theorem c2_keyword_beats_token (skills : List SkillEntry) (generated : String) (k1 b : ℝ)
    (ks ts : List String) (term : String) (dA dB : SkillEntry)
    (hk1 : 0 < k1) (hb0 : 0 ≤ b) (hb1 : b ≤ 1)
    (hAk : dA.keywords = ks ++ [term]) (hAt : dA.tokens = ts)
    (hBk : dB.keywords = ks) (hBt : dB.tokens = ts ++ [term])
    (hks : ∀ k ∈ ks, ¬(k = term ∨ term.toList <:+: k.toList))
    (hts : term ∉ ts)
    (hmemB : dB ∈ skills) :
    (scoreSkill (buildIndex skills generated) k1 b dB [term]).score <
      (scoreSkill (buildIndex skills generated) k1 b dA [term]).score := by
  have hksP : ks.countP (fun k => keywordMatches k term) = 0 := by
    rw [List.countP_eq_zero]
    intro k hk2
    rw [keywordMatches_iff]
    exact hks k hk2
  have htsP : ts.countP (fun t => t == term) = 0 := by
    rw [List.countP_eq_zero]
    intro t ht2
    simp only [beq_iff_eq]
    rintro rfl
    exact hts ht2
  have htfA : getTermFrequency dA term = 2 := by
    rw [getTermFrequency_eq, hAk, hAt, List.countP_append, hksP, htsP]
    simp [keywordMatches]
  have htfB : getTermFrequency dB term = 1 := by
    rw [getTermFrequency_eq, hBk, hBt, List.countP_append, hksP, htsP]
    simp
  have hdlen : getDocLength dB = getDocLength dA := by
    unfold getDocLength
    rw [hAk, hAt, hBk, hBt]
    simp only [List.length_append, List.length_singleton]
    omega
  have hdlenA : 1 ≤ getDocLength dA := by
    unfold getDocLength
    rw [hAk]
    simp only [List.length_append, List.length_singleton]
    omega
  have hdf1 : 1 ≤ lookupDF (buildIndex skills generated).documentFrequency term := by
    show 1 ≤ lookupDF (calculateDocumentFrequency skills) term
    rw [lookupDF_calculateDocumentFrequency]
    have hB : (dB.keywords.contains term || dB.tokens.contains term) = true := by
      rw [Bool.or_eq_true]
      right
      rw [contains_iff_mem, hBt]
      simp
    have hpos : 0 < skills.countP
        (fun s => s.keywords.contains term || s.tokens.contains term) :=
      List.countP_pos_iff.mpr ⟨dB, hmemB, hB⟩
    omega
  have hdf2 : lookupDF (buildIndex skills generated).documentFrequency term ≤
      (buildIndex skills generated).skills.length := by
    show lookupDF (calculateDocumentFrequency skills) term ≤ skills.length
    rw [lookupDF_calculateDocumentFrequency]
    exact List.countP_le_length _
  have hidf : 0 < calculateIDF (buildIndex skills generated) term :=
    calculateIDF_pos _ term hdf1 hdf2
  have havg : 0 < (buildIndex skills generated).avgDocLength := by
    show 0 < calculateAvgDocLength skills
    apply calculateAvgDocLength_pos skills dB hmemB
    rw [hBt]
    simp only [List.length_append, List.length_singleton]
    omega
  have hscoreA : (scoreSkill (buildIndex skills generated) k1 b dA [term]).score =
      calculateIDF (buildIndex skills generated) term * ((2 : ℝ) * (k1 + 1) /
        ((2 : ℝ) + k1 * (1 - b + b * ((getDocLength dA : ℝ) /
          (buildIndex skills generated).avgDocLength)))) := by
    rw [scoreSkill_score, List.map_cons, List.map_nil, List.sum_cons, List.sum_nil, add_zero]
    unfold termContribution
    rw [htfA]
    norm_num
  have hscoreB : (scoreSkill (buildIndex skills generated) k1 b dB [term]).score =
      calculateIDF (buildIndex skills generated) term * ((1 : ℝ) * (k1 + 1) /
        ((1 : ℝ) + k1 * (1 - b + b * ((getDocLength dA : ℝ) /
          (buildIndex skills generated).avgDocLength)))) := by
    rw [scoreSkill_score, List.map_cons, List.map_nil, List.sum_cons, List.sum_nil, add_zero]
    unfold termContribution
    rw [htfB, hdlen]
    norm_num
  rw [hscoreA, hscoreB]
  have hdlpos : (0 : ℝ) < (getDocLength dA : ℝ) := by
    exact_mod_cast Nat.lt_of_lt_of_le Nat.zero_lt_one hdlenA
  have hratio : 0 < (getDocLength dA : ℝ) / (buildIndex skills generated).avgDocLength :=
    div_pos hdlpos havg
  have hEpos : 0 < 1 - b + b * ((getDocLength dA : ℝ) /
      (buildIndex skills generated).avgDocLength) := by
    by_cases hblt : b < 1
    · have := mul_nonneg hb0 (le_of_lt hratio)
      linarith
    · have hbeq : b = 1 := le_antisymm hb1 (not_lt.mp hblt)
      rw [hbeq]
      linarith
  have hK : 0 < k1 * (1 - b + b * ((getDocLength dA : ℝ) /
      (buildIndex skills generated).avgDocLength)) := mul_pos hk1 hEpos
  apply mul_lt_mul_of_pos_left _ hidf
  rw [div_lt_div_iff₀ (by linarith) (by linarith)]
  nlinarith [mul_pos (show (0:ℝ) < k1 + 1 by linarith) hK]

/-- A concrete document matching "git" only via an extra keyword. -/
def kwDoc : SkillEntry :=
  { name := "kw-doc", description := "", location := ""
    keywords := ["database", "git"], tokens := ["sql"]
    tools := none, alwaysInclude := false }

/-- A concrete document matching "git" only via an extra body token. -/
def tokDoc : SkillEntry :=
  { name := "tok-doc", description := "", location := ""
    keywords := ["database"], tokens := ["sql", "git"]
    tools := none, alwaysInclude := false }

/-- C2 (witness): with the two-document corpus `[kwDoc, tokDoc]` and
default BM25 parameters, the keyword match strictly outranks the token
match on the query term "git". -/
theorem c2_witness :
    (scoreSkill (buildIndex [kwDoc, tokDoc] "t") 1.2 0.75 tokDoc ["git"]).score <
      (scoreSkill (buildIndex [kwDoc, tokDoc] "t") 1.2 0.75 kwDoc ["git"]).score :=
  c2_keyword_beats_token [kwDoc, tokDoc] "t" 1.2 0.75 ["database"] ["sql"] "git" kwDoc tokDoc
    (by norm_num) (by norm_num) (by norm_num)
    (by decide) (by decide) (by decide) (by decide)
    (by decide) (by decide) (by decide)

end SkillRouter
